import Mathlib

/-!
Shallow embedding of `src/reduce.rs` (numaflow-rs reduce service): the per-call
keyed dispatch and reducer-lifecycle engine, its validation logic, the error
drain, and the `Server` configuration builder, together with proofs of the
behavioural claims about them.

The asynchronous per-call pipeline (inbound dispatch loop, per-key reducer
tasks, `TaskSet::close`) is embedded as a deterministic sequential program:
channels become lists of the values sent on them, the per-key `Task` records
the requests delivered to its input channel, and the reducer body runs when
the task set is closed (after all of a task's input has been delivered),
which is the order the code enforces via `Task::close` awaiting completion.
-/

namespace NumaflowReduce

/-- Protobuf timestamp (`prost_types::Timestamp`): seconds and nanos. -/
structure ProtoTimestamp where
  seconds : Int
  nanos : Int
deriving DecidableEq, BEq, Repr

/-- Modelled from the spec: instants (`chrono::DateTime<Utc>`) are wall-clock
times with nanosecond resolution; the `shared` module converting between
protobuf timestamps and instants is not under `src/`, so an instant is carried
as the optional protobuf timestamp itself. -/
abbrev DateTimeUtc := Option ProtoTimestamp

/-- Modelled from the spec: `shared::utc_from_timestamp`, the conversion from
an optional wire timestamp to an instant; instants are carried verbatim. -/
def utc_from_timestamp (t : Option ProtoTimestamp) : DateTimeUtc := t

/-- Modelled from the spec: `shared::prost_timestamp_from_utc`, the conversion
from an instant back to a wire timestamp; instants are carried verbatim. -/
def prost_timestamp_from_utc (t : DateTimeUtc) : Option ProtoTimestamp := t

/-- Wire window (`proto::Window`): start, end and slot. `end` is a Lean
keyword, so the field is named `end_`. -/
structure ProtoWindow where
  start : Option ProtoTimestamp
  end_ : Option ProtoTimestamp
  slot : String
deriving DecidableEq, BEq, Repr

/-- Wire payload (`proto::reduce_request::Payload`). -/
structure Payload where
  keys : List String
  value : List Nat
  watermark : Option ProtoTimestamp
  event_time : Option ProtoTimestamp
  headers : List (String × String)
deriving DecidableEq, BEq, Repr

/-- Wire operation (`proto::reduce_request::WindowOperation`). -/
structure WindowOperation where
  event : Int
  windows : List ProtoWindow
deriving DecidableEq, BEq, Repr

/-- Wire request (`proto::ReduceRequest`): optional payload and operation. -/
structure ProtoReduceRequest where
  payload : Option Payload
  operation : Option WindowOperation
deriving DecidableEq, BEq, Repr

/-- Wire response result (`proto::reduce_response::Result`). -/
structure ReduceResponseResult where
  keys : List String
  value : List Nat
  tags : List String
deriving DecidableEq, BEq, Repr

/-- Wire response (`proto::ReduceResponse`): optional result, window, eof. -/
structure ProtoReduceResponse where
  result : Option ReduceResponseResult
  window : Option ProtoWindow
  eof : Bool
deriving DecidableEq, BEq, Repr

/-- Embeds `crate::error::ErrorKind`: the two error kinds the reduce module uses. -/
inductive ErrorKind where
  | InternalError (msg : String)
  | UserDefinedError (msg : String)
deriving DecidableEq, BEq, Repr

/-- Embeds `crate::error::Error`: the reduce module only builds `Error::ReduceError`. -/
inductive Error where
  | ReduceError (kind : ErrorKind)
deriving DecidableEq, BEq, Repr

/-- Embeds `IntervalWindow`: start and end boundary of the window. The Rust default
is `DateTime::default()` on both fields; under the verbatim instant model the
default instant is `none`. -/
structure IntervalWindow where
  start_time : DateTimeUtc := none
  end_time : DateTimeUtc := none
deriving DecidableEq, BEq, Repr

/-- Embeds `IntervalWindow::new`. -/
def IntervalWindow.new (start_time end_time : DateTimeUtc) : IntervalWindow :=
  { start_time := start_time, end_time := end_time }

/-- Embeds `Metadata`: additional information passed into `Reducer::reduce`. -/
structure Metadata where
  interval_window : IntervalWindow
deriving DecidableEq, BEq, Repr

/-- Embeds `Message`: the response from the user's `Reducer::reduce`. -/
structure Message where
  keys : Option (List String)
  value : List Nat
  tags : Option (List String)
deriving DecidableEq, BEq, Repr

/-- Embeds `Message::new`: a message with the given value and no keys or tags. -/
def Message.new (value : List Nat) : Message :=
  { keys := none, value := value, tags := none }

/-- Handler-facing `ReduceRequest` built by `validate_and_extract`. -/
structure ReduceRequest where
  keys : List String
  value : List Nat
  watermark : DateTimeUtc
  eventtime : DateTimeUtc
deriving DecidableEq, BEq, Repr

/-- Outcome of one invocation of the embedder's `Reducer::reduce`: it either
returns its list of messages or terminates abnormally (panics) with a
stringified description (the `Display` of the resulting `JoinError`). -/
inductive ReducerResult where
  | ok (messages : List Message)
  | panicked (desc : String)
deriving DecidableEq, BEq, Repr

/-- A reducer as a function of the keys, the full contents of its input
channel, and the metadata. Every instance a `ReducerCreator` creates computes
the same function, so the creator is modelled by this function; the individual
`create()` invocations are logged in the task set (`createLog`). -/
def ReducerFn : Type :=
  List String → List ReduceRequest → Metadata → ReducerResult

def KEY_JOIN_DELIMITER : String := ":"

def DEFAULT_MAX_MESSAGE_SIZE : Nat := 64 * 1024 * 1024

def DEFAULT_SOCK_ADDR : String := "/var/run/numaflow/reduce.sock"

def DEFAULT_SERVER_INFO_FILE : String := "/var/run/numaflow/reducer-server-info"

def DROP : String := "U+005C__DROP__"

/-- Embeds `keys.join(KEY_JOIN_DELIMITER)`: the canonical string of a key tuple. -/
def joinKeys (keys : List String) : String :=
  String.intercalate KEY_JOIN_DELIMITER keys

/-- State of one `Task`: the keys and metadata window its reducer was started
with, and the contents of its capacity-1 input channel as the list of requests
delivered to it, in delivery order. -/
structure TaskEntry where
  keys : List String
  md : IntervalWindow
  inputs : List ReduceRequest
deriving DecidableEq, BEq, Repr

/-- Per-call `TaskSet` state: the `HashMap<String, Task>` as an
insertion-ordered association list, the error channel contents
(`error_stream`), the pinned window, and a log of the canonical key of each
`creator.create()` invocation (instrumentation of the factory calls). -/
structure TaskSet where
  tasks : List (String × TaskEntry)
  errors : List Error
  window : IntervalWindow
  createLog : List String
deriving DecidableEq, BEq, Repr

/-- Embeds `HashMap::get` on the association list. -/
def lookupTask : List (String × TaskEntry) → String → Option TaskEntry
  | [], _ => none
  | (k', v) :: rest, k => if k' = k then some v else lookupTask rest k

/-- Embeds `HashMap::contains_key` on the association list. -/
def containsTask : List (String × TaskEntry) → String → Bool
  | [], _ => false
  | (k', _) :: rest, k => k' = k || containsTask rest k

/-- Embeds `HashMap::insert` on the association list: replace an existing binding,
otherwise append in insertion order. -/
def insertTask : List (String × TaskEntry) → String → TaskEntry →
    List (String × TaskEntry)
  | [], k, v => [(k, v)]
  | (k', v') :: rest, k, v =>
    if k' = k then (k, v) :: rest else (k', v') :: insertTask rest k v

/-- Embeds `Task::send`: deliver a request into the input channel of the task bound
to key `k`; every other registry entry is untouched. -/
def sendToTask : List (String × TaskEntry) → String → ReduceRequest →
    List (String × TaskEntry)
  | [], _, _ => []
  | (k', v) :: rest, k, rr =>
    if k' = k then (k', { v with inputs := v.inputs ++ [rr] }) :: sendToTask rest k rr
    else (k', v) :: sendToTask rest k rr

/-- Embeds `TaskSet::handle_error`: send an error on the error channel. -/
def handle_error (s : TaskSet) (e : Error) : TaskSet :=
  { s with errors := s.errors ++ [e] }

/-- Embeds `TaskSet::validate_and_extract`: requires a payload and an operation and
exactly one window; on success returns the handler-facing request and the
interval window, otherwise the error it reports. -/
def validate_and_extract (rr : ProtoReduceRequest) :
    Except Error (ReduceRequest × IntervalWindow) :=
  match rr.payload, rr.operation with
  | some payload, some operation =>
    match operation.windows with
    | [window] =>
      let start_time := utc_from_timestamp window.start
      let end_time := utc_from_timestamp window.end_
      let interval_window := IntervalWindow.new start_time end_time
      .ok
        ({ keys := payload.keys, value := payload.value,
           watermark := utc_from_timestamp payload.watermark,
           eventtime := utc_from_timestamp payload.event_time },
         interval_window)
    | _ =>
      .error (.ReduceError (.InternalError "Exactly one window is required"))
  | _, _ => .error (.ReduceError (.InternalError "Invalid ReduceRequest"))

/-- Embeds `TaskSet::create_and_write`: validate, pin the window, create a reducer
via the factory (logged), start and register the task, then deliver the
request to it; the lookup-failure branch reports "Task not found". -/
def create_and_write (s : TaskSet) (keys : List String)
    (rr : ProtoReduceRequest) : TaskSet :=
  match validate_and_extract rr with
  | .error e => handle_error s e
  | .ok (reduce_request, interval_window) =>
    let s1 : TaskSet :=
      { s with
        window := interval_window,
        createLog := s.createLog ++ [joinKeys keys] }
    let task : TaskEntry := { keys := keys, md := interval_window, inputs := [] }
    let tasks := insertTask s1.tasks (joinKeys keys) task
    match lookupTask tasks (joinKeys keys) with
    | some _ => { s1 with tasks := sendToTask tasks (joinKeys keys) reduce_request }
    | none =>
      handle_error { s1 with tasks := tasks }
        (.ReduceError (.InternalError "Task not found"))

/-- Embeds `TaskSet::write_to_task`: validate, then deliver to the existing task, or
report "Task not found". -/
def write_to_task (s : TaskSet) (keys : List String)
    (rr : ProtoReduceRequest) : TaskSet :=
  match validate_and_extract rr with
  | .error e => handle_error s e
  | .ok (reduce_request, _) =>
    let task_name := joinKeys keys
    match lookupTask s.tasks task_name with
    | some _ => { s with tasks := sendToTask s.tasks task_name reduce_request }
    | none => handle_error s (.ReduceError (.InternalError "Task not found"))

/-- One item of the inbound gRPC stream: a decoded request, or a transport
error whose `Display` string is carried. -/
abbrev InboundItem := Except String ProtoReduceRequest

/-- One iteration of the inbound dispatch loop of `reduce_fn`: transport
errors and missing payloads are reported as internal errors; otherwise the
record is routed to the existing task for its canonical key, or a task is
created for it. -/
def handleInbound (s : TaskSet) (item : InboundItem) : TaskSet :=
  match item with
  | .error e => handle_error s (.ReduceError (.InternalError e))
  | .ok rr =>
    match rr.payload with
    | none => handle_error s (.ReduceError (.InternalError "Invalid ReduceRequest"))
    | some payload =>
      let keys := payload.keys
      if containsTask s.tasks (joinKeys keys) then write_to_task s keys rr
      else create_and_write s keys rr

/-- The inbound dispatch loop of `reduce_fn`, run to the end of the stream. -/
def dispatchLoop (s : TaskSet) : List InboundItem → TaskSet
  | [] => s
  | item :: rest => dispatchLoop (handleInbound s item) rest

/-- Embeds `TaskSet::new`: empty registry, empty error channel, default window. -/
def TaskSet.new : TaskSet :=
  { tasks := [], errors := [], window := {}, createLog := [] }

/-- The window a response carries: start and end from the interval window,
slot hard-coded to "slot-0" (both in the task driver and in `close`). -/
def protoWindowOf (w : IntervalWindow) : ProtoWindow :=
  { start := prost_timestamp_from_utc w.start_time,
    end_ := prost_timestamp_from_utc w.end_time,
    slot := "slot-0" }

/-- The outbound item the task driver sends for one user message: the
message's fields, the task's window, and `eof = false`. -/
def driverResponse (md : IntervalWindow) (message : Message) :
    ProtoReduceResponse :=
  { result := some
      { keys := message.keys.getD [],
        value := message.value,
        tags := message.tags.getD [] },
    window := some (protoWindowOf md),
    eof := false }

/-- Result of running one task to completion: the items its driver sent on
the outbound channel, the errors its driver and watcher reported, and the
finished signal the watcher sends. -/
structure TaskRun where
  outbound : List ProtoReduceResponse
  errors : List Error
  finished : Bool
deriving DecidableEq, BEq, Repr

/-- Driver plus watcher of one `Task`, run to completion: on normal return
the driver forwards every message with `eof = false`; on abnormal termination
the watcher reports a `UserDefinedError` carrying `format!(" {}", e)` of the
failure and nothing is forwarded; in both cases the watcher then signals
finished. -/
def runTask (f : ReducerFn) (t : TaskEntry) : TaskRun :=
  match f t.keys t.inputs { interval_window := t.md } with
  | .ok messages =>
    { outbound := messages.map (driverResponse t.md), errors := [], finished := true }
  | .panicked desc =>
    { outbound := [],
      errors := [.ReduceError (.UserDefinedError (" " ++ desc))],
      finished := true }

/-- The end-of-window marker `TaskSet::close` sends: no result, the pinned
window with slot "slot-0", and `eof = true`. -/
def eofResponse (w : IntervalWindow) : ProtoReduceResponse :=
  { result := none, window := some (protoWindowOf w), eof := true }

/-- Observable outcome of one call: the `Ok` items of the outbound response
channel in order, the error channel contents in order, and the log of factory
invocations. -/
structure CallResult where
  outbound : List ProtoReduceResponse
  errors : List Error
  createLog : List String
deriving DecidableEq, BEq, Repr

/-- Embeds `TaskSet::close`: drain the registry closing every task in turn (each
task's reducer runs on its full input), then emit the end-of-window marker
carrying the pinned window. -/
def TaskSet.close (f : ReducerFn) (s : TaskSet) : CallResult :=
  let runs := s.tasks.map fun p => runTask f p.2
  { outbound := (runs.map TaskRun.outbound).flatten ++ [eofResponse s.window],
    errors := s.errors ++ (runs.map TaskRun.errors).flatten,
    createLog := s.createLog }

/-- One full call of `reduce_fn`: run the inbound dispatch loop on the whole
inbound stream, then close the task set. -/
def processCall (f : ReducerFn) (inbound : List InboundItem) : CallResult :=
  TaskSet.close f (dispatchLoop TaskSet.new inbound)

/-- Observable outcome of the error-drain task: the failure items it forwards
on the response channel and the number of shutdown signals it sends. -/
structure DrainResult where
  forwarded : List Error
  shutdownSignals : Nat
deriving DecidableEq, BEq, Repr

/-- The error-drain task of `reduce_fn`: it receives at most one error from
the error channel, forwards it as a failure item on the response channel,
signals process shutdown, and exits; later errors are never received. -/
def errorDrain (errs : List Error) : DrainResult :=
  match errs with
  | [] => { forwarded := [], shutdownSignals := 0 }
  | e :: _ => { forwarded := [e], shutdownSignals := 1 }

/-- Embeds `Server`: the gRPC server configuration. `PathBuf` is modelled as the
path string. -/
structure Server (C : Type) where
  sock_addr : String
  max_message_size : Nat
  server_info_file : String
  creator : Option C

/-- Embeds `Server::new`. -/
def Server.new {C : Type} (creator : C) : Server C :=
  { sock_addr := DEFAULT_SOCK_ADDR,
    max_message_size := DEFAULT_MAX_MESSAGE_SIZE,
    server_info_file := DEFAULT_SERVER_INFO_FILE,
    creator := some creator }

/-- Embeds `Server::with_socket_file`. -/
def Server.with_socket_file {C : Type} (s : Server C) (file : String) : Server C :=
  { s with sock_addr := file }

/-- Embeds `Server::socket_file`. -/
def Server.socket_file {C : Type} (s : Server C) : String :=
  s.sock_addr

/-- Embeds `Server::with_max_message_size`; the getter `Server::max_message_size` is
the field accessor. -/
def Server.with_max_message_size {C : Type} (s : Server C) (message_size : Nat) :
    Server C :=
  { s with max_message_size := message_size }

/-- Embeds `Server::with_server_info_file`; the getter `Server::server_info_file` is
the field accessor. -/
def Server.with_server_info_file {C : Type} (s : Server C) (file : String) :
    Server C :=
  { s with server_info_file := file }

/-!
Specification-side helpers: views of the inbound stream used to state the
theorems. They are derived from `validate_and_extract` so they cannot drift
from the embedded validation logic.
-/

/-- View of an inbound item as a valid record: its payload keys, the extracted
request and interval window, when `validate_and_extract` accepts it. -/
def recordView (item : InboundItem) :
    Option (List String × ReduceRequest × IntervalWindow) :=
  match item with
  | .error _ => none
  | .ok rr =>
    match rr.payload with
    | none => none
    | some payload =>
      match validate_and_extract rr with
      | .ok (req, iw) => some (payload.keys, req, iw)
      | .error _ => none

/-- Canonical key strings of the valid records of the stream, in order, with
repetitions. -/
def validKeys (l : List InboundItem) : List String :=
  l.filterMap fun i => (recordView i).map fun v => joinKeys v.1

/-- First occurrences of a list's elements, in order of first sight. -/
def firstSight : List String → List String
  | [] => []
  | k :: rest => k :: (firstSight rest).filter (fun k' => k' ≠ k)

/-- Views of the valid records whose keys canonicalise to `k`, in order. -/
def viewsFor (k : String) (l : List InboundItem) :
    List (List String × ReduceRequest × IntervalWindow) :=
  (l.filterMap recordView).filter fun v => joinKeys v.1 = k

/-- The task entry the registry must hold for canonical key `k` after the
stream `l` has been dispatched: created from the first valid record for `k`,
holding the extracted requests of all valid records for `k`, in order. -/
def taskEntryFor (k : String) (l : List InboundItem) : Option TaskEntry :=
  match viewsFor k l with
  | [] => none
  | v :: vs =>
    some { keys := v.1, md := v.2.2, inputs := (v :: vs).map fun v' => v'.2.1 }

/-- The errors one inbound item makes the dispatch loop report, as a function
of the item alone. -/
def recordErrors (i : InboundItem) : List Error :=
  match i with
  | .error e => [.ReduceError (.InternalError e)]
  | .ok rr =>
    match rr.payload with
    | none => [.ReduceError (.InternalError "Invalid ReduceRequest")]
    | some _ =>
      match validate_and_extract rr with
      | .error e => [e]
      | .ok _ => []

def invalidReduceRequestError : Error :=
  .ReduceError (.InternalError "Invalid ReduceRequest")

def exactlyOneWindowError : Error :=
  .ReduceError (.InternalError "Exactly one window is required")

def taskNotFoundError : Error :=
  .ReduceError (.InternalError "Task not found")

/-!
Association-list lemmas for the task registry.
-/

theorem lookupTask_insertTask_self (ts : List (String × TaskEntry))
    (k : String) (v : TaskEntry) : lookupTask (insertTask ts k v) k = some v := by
  induction ts with
  | nil => simp [insertTask, lookupTask]
  | cons p rest ih =>
    by_cases h : p.1 = k
    · simp [insertTask, lookupTask, h]
    · simp [insertTask, lookupTask, h, ih]

theorem containsTask_eq_isSome_lookupTask (ts : List (String × TaskEntry))
    (k : String) : containsTask ts k = (lookupTask ts k).isSome := by
  induction ts with
  | nil => simp [containsTask, lookupTask]
  | cons p rest ih =>
    by_cases h : p.1 = k
    · simp [containsTask, lookupTask, h]
    · simp [containsTask, lookupTask, h, ih]

theorem containsTask_eq_true_iff (ts : List (String × TaskEntry)) (k : String) :
    containsTask ts k = true ↔ k ∈ ts.map Prod.fst := by
  induction ts with
  | nil => simp [containsTask]
  | cons p rest ih =>
    by_cases h : p.1 = k
    · simp [containsTask, h]
    · simp [containsTask, h, ih, Ne.symm h]

theorem map_fst_sendToTask (ts : List (String × TaskEntry)) (k : String)
    (rr : ReduceRequest) : (sendToTask ts k rr).map Prod.fst = ts.map Prod.fst := by
  induction ts with
  | nil => simp [sendToTask]
  | cons p rest ih =>
    rcases p with ⟨a, b⟩
    by_cases h : a = k
    · simp [sendToTask, h, ih]
    · simp [sendToTask, h, ih]

theorem insertTask_of_not_contains (ts : List (String × TaskEntry))
    (k : String) (v : TaskEntry) (h : containsTask ts k = false) :
    insertTask ts k v = ts ++ [(k, v)] := by
  induction ts with
  | nil => simp [insertTask]
  | cons p rest ih =>
    simp only [containsTask, Bool.or_eq_false_iff, decide_eq_false_iff_not] at h
    simp [insertTask, h.1, ih h.2]

theorem lookupTask_sendToTask (ts : List (String × TaskEntry)) (k k' : String)
    (rr : ReduceRequest) :
    lookupTask (sendToTask ts k rr) k' =
      if k' = k then
        (lookupTask ts k').map fun e => { e with inputs := e.inputs ++ [rr] }
      else lookupTask ts k' := by
  induction ts with
  | nil => by_cases h : k' = k <;> simp [sendToTask, lookupTask, h]
  | cons p rest ih =>
    rcases p with ⟨a, b⟩
    by_cases hp : a = k
    · subst hp
      by_cases hk : k' = a
      · subst hk
        simp [sendToTask, lookupTask]
      · have hq : ¬ a = k' := fun hc => hk hc.symm
        simp [sendToTask, lookupTask, hq, hk, ih]
    · by_cases hq : a = k'
      · have hk : ¬ k' = k := fun hc => hp (hq.trans hc)
        simp [sendToTask, lookupTask, hp, hq, hk]
      · simp [sendToTask, lookupTask, hp, hq, ih]

theorem lookupTask_append (ts₁ ts₂ : List (String × TaskEntry)) (k : String) :
    lookupTask (ts₁ ++ ts₂) k =
      match lookupTask ts₁ k with
      | some v => some v
      | none => lookupTask ts₂ k := by
  induction ts₁ with
  | nil => simp [lookupTask]
  | cons p rest ih =>
    by_cases h : p.1 = k
    · simp [lookupTask, h]
    · simp [lookupTask, h, ih]

theorem lookupTask_eq_some_of_mem (ts : List (String × TaskEntry))
    (k : String) (e : TaskEntry) (hnd : (ts.map Prod.fst).Nodup)
    (hm : (k, e) ∈ ts) : lookupTask ts k = some e := by
  induction ts with
  | nil => simp at hm
  | cons p rest ih =>
    simp only [List.map_cons, List.nodup_cons] at hnd
    rcases List.mem_cons.mp hm with h | h
    · subst h
      simp [lookupTask]
    · have hk : ¬ p.1 = k := by
        intro hc
        exact hnd.1 (by rw [hc]; exact List.mem_map.mpr ⟨(k, e), h, rfl⟩)
      rcases p with ⟨a, b⟩
      simp only at hk
      simp [lookupTask, hk, ih hnd.2 h]

theorem sendToTask_append (ts₁ ts₂ : List (String × TaskEntry)) (k : String)
    (rr : ReduceRequest) :
    sendToTask (ts₁ ++ ts₂) k rr = sendToTask ts₁ k rr ++ sendToTask ts₂ k rr := by
  induction ts₁ with
  | nil => simp [sendToTask]
  | cons p rest ih =>
    rcases p with ⟨a, b⟩
    by_cases h : a = k <;> simp [sendToTask, h, ih]

theorem sendToTask_of_not_mem (ts : List (String × TaskEntry)) (k : String)
    (rr : ReduceRequest) (h : k ∉ ts.map Prod.fst) : sendToTask ts k rr = ts := by
  induction ts with
  | nil => rfl
  | cons p rest ih =>
    rcases p with ⟨a, b⟩
    simp only [List.map_cons, List.mem_cons] at h
    push_neg at h
    have hne : ¬ a = k := fun hc => h.1 hc.symm
    simp [sendToTask, hne, ih h.2]

/-!
Lemmas about `firstSight` and the stream views.
-/

theorem mem_firstSight (l : List String) (k : String) :
    k ∈ firstSight l ↔ k ∈ l := by
  induction l with
  | nil => simp [firstSight]
  | cons a rest ih =>
    by_cases h : k = a
    · simp [firstSight, h]
    · simp [firstSight, List.mem_filter, h, ih]

theorem nodup_firstSight (l : List String) : (firstSight l).Nodup := by
  induction l with
  | nil => simp [firstSight]
  | cons a rest ih =>
    refine List.nodup_cons.mpr ⟨?_, ih.filter _⟩
    intro hmem
    have h2 := (List.mem_filter.mp hmem).2
    simp at h2

theorem firstSight_append_singleton (l : List String) (x : String) :
    firstSight (l ++ [x]) =
      if x ∈ l then firstSight l else firstSight l ++ [x] := by
  induction l with
  | nil => simp [firstSight]
  | cons a rest ih =>
    by_cases hx : x ∈ rest
    · simp [firstSight, ih, hx]
    · by_cases hxa : x = a
      · subst hxa
        simp [firstSight, ih, hx, List.filter_append]
      · simp [firstSight, ih, hx, hxa, List.filter_append, Ne.symm hxa]

theorem count_firstSight (l : List String) (k : String) :
    (firstSight l).count k = if k ∈ l then 1 else 0 := by
  by_cases h : k ∈ l
  · rw [if_pos h]
    exact List.count_eq_one_of_mem (nodup_firstSight l) ((mem_firstSight l k).mpr h)
  · rw [if_neg h]
    exact List.count_eq_zero.mpr fun hc => h ((mem_firstSight l k).mp hc)

theorem validKeys_append (l₁ l₂ : List InboundItem) :
    validKeys (l₁ ++ l₂) = validKeys l₁ ++ validKeys l₂ := by
  simp [validKeys, List.filterMap_append]

theorem viewsFor_append (k : String) (l₁ l₂ : List InboundItem) :
    viewsFor k (l₁ ++ l₂) = viewsFor k l₁ ++ viewsFor k l₂ := by
  simp [viewsFor, List.filterMap_append, List.filter_append]

theorem validKeys_singleton_of_view (item : InboundItem)
    (v : List String × ReduceRequest × IntervalWindow)
    (h : recordView item = some v) : validKeys [item] = [joinKeys v.1] := by
  simp [validKeys, List.filterMap, h]

theorem validKeys_singleton_of_none (item : InboundItem)
    (h : recordView item = none) : validKeys [item] = [] := by
  simp [validKeys, List.filterMap, h]

theorem viewsFor_singleton_of_view (k : String) (item : InboundItem)
    (v : List String × ReduceRequest × IntervalWindow)
    (h : recordView item = some v) :
    viewsFor k [item] = if joinKeys v.1 = k then [v] else [] := by
  by_cases hk : joinKeys v.1 = k <;> simp [viewsFor, List.filterMap, h, hk]

theorem viewsFor_singleton_of_none (k : String) (item : InboundItem)
    (h : recordView item = none) : viewsFor k [item] = [] := by
  simp [viewsFor, List.filterMap, h]

theorem filterMap_recordView_append_of_none (l : List InboundItem)
    (item : InboundItem) (h : recordView item = none) :
    (l ++ [item]).filterMap recordView = l.filterMap recordView := by
  simp [List.filterMap_append, List.filterMap, h]

theorem mem_validKeys_iff_viewsFor_ne_nil (k : String) (l : List InboundItem) :
    k ∈ validKeys l ↔ viewsFor k l ≠ [] := by
  constructor
  · intro h
    rcases List.mem_filterMap.mp h with ⟨item, hitem, hv⟩
    rcases Option.map_eq_some'.mp hv with ⟨v, hview, hk⟩
    intro hnil
    have hmem : v ∈ viewsFor k l := by
      refine List.mem_filter.mpr ⟨List.mem_filterMap.mpr ⟨item, hitem, hview⟩, ?_⟩
      simp [hk]
    rw [hnil] at hmem
    simp at hmem
  · intro h
    rcases List.exists_mem_of_ne_nil _ h with ⟨v, hv⟩
    have hv' := List.mem_filter.mp hv
    rcases List.mem_filterMap.mp hv'.1 with ⟨item, hitem, hview⟩
    refine List.mem_filterMap.mpr ⟨item, hitem, ?_⟩
    rw [hview]
    simpa using hv'.2

/-!
Shape lemmas for the dispatch step.
-/

theorem write_to_task_of_validate_error (s : TaskSet) (keys : List String)
    (rr : ProtoReduceRequest) (e : Error)
    (h : validate_and_extract rr = .error e) :
    write_to_task s keys rr = handle_error s e := by
  simp [write_to_task, h]

theorem create_and_write_of_validate_error (s : TaskSet) (keys : List String)
    (rr : ProtoReduceRequest) (e : Error)
    (h : validate_and_extract rr = .error e) :
    create_and_write s keys rr = handle_error s e := by
  simp [create_and_write, h]

theorem write_to_task_valid (s : TaskSet) (keys : List String)
    (rr : ProtoReduceRequest) (req : ReduceRequest) (iw : IntervalWindow)
    (e : TaskEntry) (hval : validate_and_extract rr = .ok (req, iw))
    (hlook : lookupTask s.tasks (joinKeys keys) = some e) :
    write_to_task s keys rr =
      { s with tasks := sendToTask s.tasks (joinKeys keys) req } := by
  simp [write_to_task, hval, hlook]

theorem create_and_write_valid (s : TaskSet) (keys : List String)
    (rr : ProtoReduceRequest) (req : ReduceRequest) (iw : IntervalWindow)
    (hval : validate_and_extract rr = .ok (req, iw)) :
    create_and_write s keys rr =
      { s with
        window := iw,
        createLog := s.createLog ++ [joinKeys keys],
        tasks :=
          sendToTask
            (insertTask s.tasks (joinKeys keys)
              { keys := keys, md := iw, inputs := [] })
            (joinKeys keys) req } := by
  simp [create_and_write, hval, lookupTask_insertTask_self]

theorem recordView_of_valid (rr : ProtoReduceRequest) (p : Payload)
    (req : ReduceRequest) (iw : IntervalWindow) (hp : rr.payload = some p)
    (hval : validate_and_extract rr = .ok (req, iw)) :
    recordView (.ok rr) = some (p.keys, req, iw) := by
  simp [recordView, hp, hval]

theorem handleInbound_invalid (s : TaskSet) (item : InboundItem)
    (h : recordView item = none) :
    ∃ e, handleInbound s item = handle_error s e ∧ recordErrors item = [e] := by
  match item with
  | .error msg =>
    exact ⟨.ReduceError (.InternalError msg), rfl, rfl⟩
  | .ok rr =>
    match hp : rr.payload with
    | none =>
      refine ⟨.ReduceError (.InternalError "Invalid ReduceRequest"), ?_, ?_⟩
      · simp [handleInbound, hp]
      · simp [recordErrors, hp]
    | some p =>
      match hval : validate_and_extract rr with
      | .ok (req, iw) =>
        rw [recordView_of_valid rr p req iw hp hval] at h
        exact absurd h (by simp)
      | .error e =>
        refine ⟨e, ?_, ?_⟩
        · simp only [handleInbound, hp]
          rw [write_to_task_of_validate_error s p.keys rr e hval,
            create_and_write_of_validate_error s p.keys rr e hval, ite_self]
        · simp [recordErrors, hp, hval]

theorem handleInbound_errors (s : TaskSet) (item : InboundItem) :
    (handleInbound s item).errors = s.errors ++ recordErrors item := by
  match hview : recordView item with
  | none =>
    rcases handleInbound_invalid s item hview with ⟨e, heq, herr⟩
    rw [heq, herr]
    rfl
  | some v =>
    match item with
    | .error msg => simp [recordView] at hview
    | .ok rr =>
      match hp : rr.payload with
      | none => simp [recordView, hp] at hview
      | some p =>
        match hval : validate_and_extract rr with
        | .error e => simp [recordView, hp, hval] at hview
        | .ok (req, iw) =>
          have herr : recordErrors (.ok rr) = [] := by
            simp [recordErrors, hp, hval]
          rw [herr, List.append_nil]
          simp only [handleInbound, hp]
          by_cases hc : containsTask s.tasks (joinKeys p.keys) = true
          · rw [if_pos hc]
            have hsome : (lookupTask s.tasks (joinKeys p.keys)).isSome := by
              rw [← containsTask_eq_isSome_lookupTask]
              exact hc
            rcases Option.isSome_iff_exists.mp hsome with ⟨e, he⟩
            rw [write_to_task_valid s p.keys rr req iw e hval he]
          · rw [if_neg hc]
            rw [create_and_write_valid s p.keys rr req iw hval]

theorem dispatchLoop_append (s : TaskSet) (l₁ l₂ : List InboundItem) :
    dispatchLoop s (l₁ ++ l₂) = dispatchLoop (dispatchLoop s l₁) l₂ := by
  induction l₁ generalizing s with
  | nil => rfl
  | cons i rest ih => simp [dispatchLoop, ih]

theorem dispatchLoop_errors (s : TaskSet) (l : List InboundItem) :
    (dispatchLoop s l).errors = s.errors ++ (l.map recordErrors).flatten := by
  induction l generalizing s with
  | nil => simp [dispatchLoop]
  | cons i rest ih =>
    simp only [dispatchLoop, List.map_cons, List.flatten_cons]
    rw [ih, handleInbound_errors, List.append_assoc]

theorem taskEntryFor_congr (k : String) (l₁ l₂ : List InboundItem)
    (h : viewsFor k l₁ = viewsFor k l₂) : taskEntryFor k l₁ = taskEntryFor k l₂ := by
  unfold taskEntryFor
  rw [h]

theorem taskEntryFor_eq_of_viewsFor (k : String) (l : List InboundItem)
    (v : List String × ReduceRequest × IntervalWindow)
    (vs : List (List String × ReduceRequest × IntervalWindow))
    (h : viewsFor k l = v :: vs) :
    taskEntryFor k l =
      some { keys := v.1, md := v.2.2, inputs := (v :: vs).map fun v' => v'.2.1 } := by
  unfold taskEntryFor
  rw [h]

theorem taskEntryFor_eq_none (k : String) (l : List InboundItem)
    (h : viewsFor k l = []) : taskEntryFor k l = none := by
  unfold taskEntryFor
  rw [h]

/-- One step of the window-pinning history: a task-creating record — a valid
record whose canonical key was not seen among the earlier valid records —
re-pins the window to its own; every other record leaves the pin unchanged.
Specification helper mirroring the `self.window = interval_window` assignment
of `create_and_write`. -/
def pinStep (acc : List String × IntervalWindow) (i : InboundItem) :
    List String × IntervalWindow :=
  match recordView i with
  | none => acc
  | some v =>
    if joinKeys v.1 ∈ acc.1 then acc else (acc.1 ++ [joinKeys v.1], v.2.2)

/-- Fold of `pinStep` over the stream. -/
def pinFold (acc : List String × IntervalWindow) :
    List InboundItem → List String × IntervalWindow
  | [] => acc
  | i :: rest => pinFold (pinStep acc i) rest

/-- The window pinned after a whole stream: the window of the most recent
task-creating record, or the default window when no task was ever created. -/
def pinnedWindow (l : List InboundItem) : IntervalWindow :=
  (pinFold ([], {}) l).2

theorem pinFold_append (acc : List String × IntervalWindow)
    (l₁ l₂ : List InboundItem) :
    pinFold acc (l₁ ++ l₂) = pinFold (pinFold acc l₁) l₂ := by
  induction l₁ generalizing acc with
  | nil => rfl
  | cons i rest ih => simp [pinFold, ih]

/-- Relation between the task-set state and the prefix of the inbound stream
already dispatched: the registry holds exactly one task per canonical key of a
valid record, created on first sight, holding exactly the extracted requests
for that key in order; the factory log lists the canonical keys in first-sight
order; and the pinned window is that of the last task-creating record. -/
structure DispatchInv (s : TaskSet) (seen : List InboundItem) : Prop where
  keys_eq : s.tasks.map Prod.fst = firstSight (validKeys seen)
  lookup_eq : ∀ k, lookupTask s.tasks k = taskEntryFor k seen
  createLog_eq : s.createLog = firstSight (validKeys seen)
  window_empty : validKeys seen = [] → s.window = {}
  window_all : ∀ w, (∀ v ∈ seen.filterMap recordView, v.2.2 = w) →
    validKeys seen ≠ [] → s.window = w
  window_pin : pinFold ([], {}) seen = (firstSight (validKeys seen), s.window)

theorem dispatchInv_nil : DispatchInv TaskSet.new [] := by
  refine ⟨rfl, ?_, rfl, fun _ => rfl, ?_, rfl⟩
  · intro k
    rw [taskEntryFor_eq_none k [] rfl]
    rfl
  · intro w _ hne
    exact absurd rfl hne

theorem dispatchInv_step (s : TaskSet) (seen : List InboundItem)
    (item : InboundItem) (h : DispatchInv s seen) :
    DispatchInv (handleInbound s item) (seen ++ [item]) := by
  match hview : recordView item with
  | none =>
    rcases handleInbound_invalid s item hview with ⟨e, heq, _⟩
    rw [heq]
    have hvk : validKeys (seen ++ [item]) = validKeys seen := by
      rw [validKeys_append, validKeys_singleton_of_none item hview, List.append_nil]
    have hfm : (seen ++ [item]).filterMap recordView = seen.filterMap recordView :=
      filterMap_recordView_append_of_none seen item hview
    refine ⟨?_, ?_, ?_, ?_, ?_, ?_⟩
    · rw [hvk]
      exact h.keys_eq
    · intro k
      rw [taskEntryFor_congr k (seen ++ [item]) seen
        (by rw [viewsFor_append, viewsFor_singleton_of_none k item hview, List.append_nil])]
      exact h.lookup_eq k
    · rw [hvk]
      exact h.createLog_eq
    · rw [hvk]
      exact h.window_empty
    · intro w hall hne
      rw [hvk] at hne
      rw [hfm] at hall
      exact h.window_all w hall hne
    · rw [pinFold_append, h.window_pin, hvk]
      simp [pinFold, pinStep, hview, handle_error]
  | some v =>
    match item with
    | .error msg => simp [recordView] at hview
    | .ok rr =>
      match hp : rr.payload with
      | none => simp [recordView, hp] at hview
      | some p =>
        match hval : validate_and_extract rr with
        | .error e => simp [recordView, hp, hval] at hview
        | .ok (req, iw) =>
          have hview' : recordView (Except.ok rr) = some (p.keys, req, iw) :=
            recordView_of_valid rr p req iw hp hval
          have hvk : validKeys (seen ++ [Except.ok rr]) =
              validKeys seen ++ [joinKeys p.keys] := by
            rw [validKeys_append, validKeys_singleton_of_view (Except.ok rr) _ hview']
          have hvf : ∀ k, viewsFor k (seen ++ [Except.ok rr]) =
              viewsFor k seen ++
                (if joinKeys p.keys = k then [(p.keys, req, iw)] else []) := by
            intro k
            rw [viewsFor_append, viewsFor_singleton_of_view k (Except.ok rr) _ hview']
          have hfm : (seen ++ [Except.ok rr]).filterMap recordView =
              seen.filterMap recordView ++ [(p.keys, req, iw)] := by
            simp [List.filterMap_append, List.filterMap, hview']
          have hne' : validKeys (seen ++ [Except.ok rr]) ≠ [] := by
            rw [hvk]
            exact fun hcon => by simp at hcon
          simp only [handleInbound, hp]
          by_cases hc : containsTask s.tasks (joinKeys p.keys) = true
          · -- the task already exists: route to it
            have hmem : joinKeys p.keys ∈ validKeys seen := by
              have h1 : joinKeys p.keys ∈ s.tasks.map Prod.fst :=
                (containsTask_eq_true_iff s.tasks (joinKeys p.keys)).mp hc
              rw [h.keys_eq] at h1
              exact (mem_firstSight _ _).mp h1
            have hviews_ne : viewsFor (joinKeys p.keys) seen ≠ [] :=
              (mem_validKeys_iff_viewsFor_ne_nil _ seen).mp hmem
            rcases List.exists_cons_of_ne_nil hviews_ne with ⟨v₀, vs, hviews⟩
            have hlook : lookupTask s.tasks (joinKeys p.keys) =
                some { keys := v₀.1, md := v₀.2.2,
                       inputs := (v₀ :: vs).map fun v' => v'.2.1 } := by
              rw [h.lookup_eq, taskEntryFor_eq_of_viewsFor _ seen v₀ vs hviews]
            rw [if_pos hc, write_to_task_valid s p.keys rr req iw _ hval hlook]
            refine ⟨?_, ?_, ?_, ?_, ?_, ?_⟩
            · show (sendToTask s.tasks (joinKeys p.keys) req).map Prod.fst = _
              rw [map_fst_sendToTask, h.keys_eq, hvk,
                firstSight_append_singleton, if_pos hmem]
            · intro k
              show lookupTask (sendToTask s.tasks (joinKeys p.keys) req) k = _
              rw [lookupTask_sendToTask]
              by_cases hk : k = joinKeys p.keys
              · rw [if_pos hk, hk, h.lookup_eq,
                  taskEntryFor_eq_of_viewsFor _ seen v₀ vs hviews,
                  taskEntryFor_eq_of_viewsFor (joinKeys p.keys)
                    (seen ++ [Except.ok rr]) v₀ (vs ++ [(p.keys, req, iw)])
                    (by rw [hvf (joinKeys p.keys), hviews, if_pos rfl]; rfl)]
                simp
              · rw [if_neg hk, h.lookup_eq,
                  taskEntryFor_congr k (seen ++ [Except.ok rr]) seen
                    (by rw [hvf k, if_neg (fun hc' => hk hc'.symm), List.append_nil])]
            · show s.createLog = _
              rw [h.createLog_eq, hvk, firstSight_append_singleton, if_pos hmem]
            · intro hcon
              exact absurd hcon hne'
            · intro w hall _
              show s.window = w
              refine h.window_all w ?_ (List.ne_nil_of_mem hmem)
              intro v' hv'
              exact hall v' (by rw [hfm]; exact List.mem_append_left _ hv')
            · have hmem' : joinKeys p.keys ∈ firstSight (validKeys seen) :=
                (mem_firstSight _ _).mpr hmem
              rw [pinFold_append, h.window_pin, hvk,
                firstSight_append_singleton, if_pos hmem]
              simp [pinFold, pinStep, hview', hmem']
          · -- first sight of the key: create the task, then route
            have hnotkeys : joinKeys p.keys ∉ s.tasks.map Prod.fst := fun hcon =>
              hc ((containsTask_eq_true_iff s.tasks (joinKeys p.keys)).mpr hcon)
            have hnmem : joinKeys p.keys ∉ validKeys seen := by
              intro hcon
              exact hnotkeys (by
                rw [h.keys_eq]
                exact (mem_firstSight _ _).mpr hcon)
            have hcfalse : containsTask s.tasks (joinKeys p.keys) = false := by
              simpa using hc
            have hviews0 : viewsFor (joinKeys p.keys) seen = [] := by
              by_contra hcon
              exact hnmem ((mem_validKeys_iff_viewsFor_ne_nil _ seen).mpr hcon)
            rw [if_neg hc, create_and_write_valid s p.keys rr req iw hval]
            have htasks : sendToTask
                (insertTask s.tasks (joinKeys p.keys)
                  { keys := p.keys, md := iw, inputs := [] })
                (joinKeys p.keys) req =
                s.tasks ++
                  [(joinKeys p.keys, { keys := p.keys, md := iw, inputs := [req] })] := by
              rw [insertTask_of_not_contains s.tasks _ _ hcfalse, sendToTask_append,
                sendToTask_of_not_mem s.tasks _ req hnotkeys]
              simp [sendToTask]
            refine ⟨?_, ?_, ?_, ?_, ?_, ?_⟩
            · show (sendToTask _ _ req).map Prod.fst = _
              rw [htasks, hvk, firstSight_append_singleton, if_neg hnmem, ← h.keys_eq]
              simp
            · intro k
              show lookupTask (sendToTask _ _ req) k = _
              rw [htasks, lookupTask_append]
              by_cases hk : k = joinKeys p.keys
              · have hlnone : lookupTask s.tasks k = none := by
                  rw [hk, h.lookup_eq, taskEntryFor_eq_none _ seen hviews0]
                rw [hlnone, hk,
                  taskEntryFor_eq_of_viewsFor (joinKeys p.keys)
                    (seen ++ [Except.ok rr]) (p.keys, req, iw) []
                    (by rw [hvf (joinKeys p.keys), hviews0, if_pos rfl]; rfl)]
                simp [lookupTask]
              · rw [taskEntryFor_congr k (seen ++ [Except.ok rr]) seen
                  (by rw [hvf k, if_neg (fun hc' => hk hc'.symm), List.append_nil]),
                  ← h.lookup_eq]
                have hne2 : ¬ joinKeys p.keys = k := fun hc' => hk hc'.symm
                cases hl : lookupTask s.tasks k with
                | some e => rfl
                | none => simp [lookupTask, hne2]
            · show s.createLog ++ [joinKeys p.keys] = _
              rw [h.createLog_eq, hvk, firstSight_append_singleton, if_neg hnmem]
            · intro hcon
              exact absurd hcon hne'
            · intro w hall _
              show iw = w
              exact hall (p.keys, req, iw)
                (by rw [hfm]; exact List.mem_append_right _ (by simp))
            · have hnm' : joinKeys p.keys ∉ firstSight (validKeys seen) :=
                fun hcon => hnmem ((mem_firstSight _ _).mp hcon)
              rw [pinFold_append, h.window_pin, hvk,
                firstSight_append_singleton, if_neg hnmem]
              simp [pinFold, pinStep, hview', hnm']

theorem dispatchInv_run (l : List InboundItem) (s : TaskSet)
    (seen : List InboundItem) (h : DispatchInv s seen) :
    DispatchInv (dispatchLoop s l) (seen ++ l) := by
  induction l generalizing s seen with
  | nil => simpa using h
  | cons i rest ih =>
    have hstep := ih (handleInbound s i) (seen ++ [i]) (dispatchInv_step s seen i h)
    simpa using hstep

theorem dispatchInv_main (l : List InboundItem) :
    DispatchInv (dispatchLoop TaskSet.new l) l := by
  simpa using dispatchInv_run l TaskSet.new [] dispatchInv_nil

/-!
Lemmas about closing the task set and the produced outbound stream.
-/

theorem runTask_outbound_eof (f : ReducerFn) (e : TaskEntry)
    (item : ProtoReduceResponse) (h : item ∈ (runTask f e).outbound) :
    item.eof = false := by
  unfold runTask at h
  cases hres : f e.keys e.inputs { interval_window := e.md } with
  | ok msgs =>
    rw [hres] at h
    rcases List.mem_map.mp h with ⟨m, _, rfl⟩
    rfl
  | panicked d =>
    rw [hres] at h
    simp at h

theorem runTask_outbound_window (f : ReducerFn) (e : TaskEntry)
    (item : ProtoReduceResponse) (h : item ∈ (runTask f e).outbound) :
    item.window = some (protoWindowOf e.md) := by
  unfold runTask at h
  cases hres : f e.keys e.inputs { interval_window := e.md } with
  | ok msgs =>
    rw [hres] at h
    rcases List.mem_map.mp h with ⟨m, _, rfl⟩
    rfl
  | panicked d =>
    rw [hres] at h
    simp at h

theorem close_outbound (f : ReducerFn) (s : TaskSet) :
    (TaskSet.close f s).outbound =
      (s.tasks.map fun p => (runTask f p.2).outbound).flatten ++
        [eofResponse s.window] := by
  simp [TaskSet.close, List.map_map, Function.comp_def]

theorem close_errors (f : ReducerFn) (s : TaskSet) :
    (TaskSet.close f s).errors =
      s.errors ++ (s.tasks.map fun p => (runTask f p.2).errors).flatten := by
  simp [TaskSet.close, List.map_map, Function.comp_def]

theorem close_createLog (f : ReducerFn) (s : TaskSet) :
    (TaskSet.close f s).createLog = s.createLog := rfl

theorem processCall_outbound (f : ReducerFn) (l : List InboundItem) :
    (processCall f l).outbound =
      ((dispatchLoop TaskSet.new l).tasks.map fun p => (runTask f p.2).outbound).flatten
        ++ [eofResponse (dispatchLoop TaskSet.new l).window] :=
  close_outbound f (dispatchLoop TaskSet.new l)

theorem processCall_errors (f : ReducerFn) (l : List InboundItem) :
    (processCall f l).errors =
      (l.map recordErrors).flatten ++
        ((dispatchLoop TaskSet.new l).tasks.map fun p => (runTask f p.2).errors).flatten := by
  rw [processCall, close_errors, dispatchLoop_errors]
  rfl

theorem mem_processCall_outbound (f : ReducerFn) (l : List InboundItem)
    (item : ProtoReduceResponse) (h : item ∈ (processCall f l).outbound) :
    (∃ p ∈ (dispatchLoop TaskSet.new l).tasks, item ∈ (runTask f p.2).outbound) ∨
      item = eofResponse (dispatchLoop TaskSet.new l).window := by
  rw [processCall_outbound] at h
  rcases List.mem_append.mp h with h1 | h1
  · rcases List.mem_flatten.mp h1 with ⟨sub, hsub, hitem⟩
    rcases List.mem_map.mp hsub with ⟨p, hp, rfl⟩
    exact Or.inl ⟨p, hp, hitem⟩
  · exact Or.inr (by simpa using h1)

/-!
Case analysis of the validation errors.
-/

theorem validate_multi_window (rr : ProtoReduceRequest) (p : Payload)
    (op : WindowOperation) (hp : rr.payload = some p)
    (hop : rr.operation = some op) (hw : op.windows.length ≠ 1) :
    validate_and_extract rr = .error exactlyOneWindowError := by
  rcases rr with ⟨pay, oper⟩
  have hp' : pay = some p := hp
  have hop' : oper = some op := hop
  subst hp'
  subst hop'
  rcases op with ⟨ev, ws⟩
  cases ws with
  | nil => rfl
  | cons w rest =>
    cases rest with
    | nil => exact absurd rfl hw
    | cons w' rest' => rfl

theorem validate_missing_operation (rr : ProtoReduceRequest) (p : Payload)
    (hp : rr.payload = some p) (hop : rr.operation = none) :
    validate_and_extract rr = .error invalidReduceRequestError := by
  rcases rr with ⟨pay, oper⟩
  have hp' : pay = some p := hp
  have hop' : oper = none := hop
  subst hp'
  subst hop'
  rfl

theorem validate_error_cases (rr : ProtoReduceRequest) (e : Error)
    (h : validate_and_extract rr = .error e) :
    e = invalidReduceRequestError ∨ e = exactlyOneWindowError := by
  rcases rr with ⟨pay, oper⟩
  cases pay with
  | none =>
    cases oper with
    | none =>
      simp [validate_and_extract] at h
      exact Or.inl h.symm
    | some op =>
      simp [validate_and_extract] at h
      exact Or.inl h.symm
  | some p =>
    cases oper with
    | none =>
      simp [validate_and_extract] at h
      exact Or.inl h.symm
    | some op =>
      rcases op with ⟨ev, ws⟩
      cases ws with
      | nil =>
        simp [validate_and_extract] at h
        exact Or.inr h.symm
      | cons w rest =>
        cases rest with
        | nil => simp [validate_and_extract] at h
        | cons w' rest' =>
          simp [validate_and_extract] at h
          exact Or.inr h.symm

theorem taskEntryFor_md (k : String) (l : List InboundItem) (e : TaskEntry)
    (h : taskEntryFor k l = some e) :
    ∃ v₀ ∈ l.filterMap recordView, e.md = v₀.2.2 := by
  unfold taskEntryFor at h
  cases hv : viewsFor k l with
  | nil =>
    rw [hv] at h
    simp at h
  | cons v₀ vs =>
    rw [hv] at h
    refine ⟨v₀, ?_, ?_⟩
    · have hmem : v₀ ∈ viewsFor k l := by
        rw [hv]
        exact List.mem_cons_self v₀ vs
      exact List.mem_of_mem_filter hmem
    · have he := Option.some_inj.mp h
      rw [← he]

theorem validate_missing_payload (rr : ProtoReduceRequest)
    (hp : rr.payload = none) :
    validate_and_extract rr = .error invalidReduceRequestError := by
  rcases rr with ⟨pay, oper⟩
  have hp' : pay = none := hp
  subst hp'
  cases oper <;> rfl

/-!
Concrete fixtures used in witnesses and counterexamples, shaped after the
requests of the repository's own tests.
-/

def sampleWindow : ProtoWindow :=
  { start := some ⟨60000, 0⟩, end_ := some ⟨120000, 0⟩, slot := "slot-0" }

def samplePayload (keys : List String) : Payload :=
  { keys := keys, value := [], watermark := none, event_time := none, headers := [] }

def sampleRequest (keys : List String) (ws : List ProtoWindow) : ProtoReduceRequest :=
  { payload := some (samplePayload keys), operation := some { event := 0, windows := ws } }

def multiWindowRequest : ProtoReduceRequest :=
  sampleRequest ["key1"] [sampleWindow, sampleWindow]

def nilReducer : ReducerFn := fun _ _ _ => .ok []

def panicReducer : ReducerFn := fun _ _ _ => .panicked "Panic in reduce method"

/-!
The claims.
-/

/-- C10: for every `Server` value, `with_socket_file`, `with_server_info_file`
and `with_max_message_size` set exactly the field their getter reads back, and
each leaves every other configuration field unchanged. -/
theorem claim10_server_builders {C : Type} (s : Server C) (p : String) (n : Nat) :
    (s.with_socket_file p).socket_file = p
    ∧ (s.with_server_info_file p).server_info_file = p
    ∧ (s.with_max_message_size n).max_message_size = n
    ∧ (s.with_socket_file p).max_message_size = s.max_message_size
    ∧ (s.with_socket_file p).server_info_file = s.server_info_file
    ∧ (s.with_socket_file p).creator = s.creator
    ∧ (s.with_server_info_file p).sock_addr = s.sock_addr
    ∧ (s.with_server_info_file p).max_message_size = s.max_message_size
    ∧ (s.with_server_info_file p).creator = s.creator
    ∧ (s.with_max_message_size n).sock_addr = s.sock_addr
    ∧ (s.with_max_message_size n).server_info_file = s.server_info_file
    ∧ (s.with_max_message_size n).creator = s.creator :=
  ⟨rfl, rfl, rfl, rfl, rfl, rfl, rfl, rfl, rfl, rfl, rfl, rfl⟩

/-- C9: looking up a key right after inserting it always succeeds, so
`create_and_write` only ever reports the errors of validation — the
"Task not found" branch inside it is unreachable for every input. -/
theorem claim9_task_not_found_unreachable :
    (∀ ts k v, lookupTask (insertTask ts k v) k = some v)
    ∧ (∀ s keys rr,
        (create_and_write s keys rr).errors = s.errors ++ recordErrors (Except.ok rr))
    ∧ (∀ rr, taskNotFoundError ∉ recordErrors (Except.ok rr)) := by
  refine ⟨lookupTask_insertTask_self, ?_, ?_⟩
  · intro s keys rr
    cases hp : rr.payload with
    | none =>
      rw [create_and_write_of_validate_error s keys rr _ (validate_missing_payload rr hp)]
      simp [recordErrors, hp, handle_error, invalidReduceRequestError]
    | some p =>
      cases hval : validate_and_extract rr with
      | error e =>
        rw [create_and_write_of_validate_error s keys rr e hval]
        simp [recordErrors, hp, hval, handle_error]
      | ok v =>
        rcases v with ⟨req, iw⟩
        rw [create_and_write_valid s keys rr req iw hval]
        simp [recordErrors, hp, hval]
  · intro rr
    cases hp : rr.payload with
    | none =>
      simp only [recordErrors, hp]
      intro hmem
      rw [List.mem_singleton] at hmem
      exact absurd hmem (by decide)
    | some p =>
      cases hval : validate_and_extract rr with
      | error e =>
        simp only [recordErrors, hp, hval]
        rcases validate_error_cases rr e hval with rfl | rfl
        all_goals
          intro hmem
          rw [List.mem_singleton] at hmem
          exact absurd hmem (by decide)
      | ok v =>
        simp [recordErrors, hp, hval]

/-- C4: when the reducer invocation terminates abnormally with description
`d`, the task's watcher reports a `UserDefinedError` carrying the stringified
description (the code formats it as a space followed by `d`), the driver
forwards nothing (the return value is discarded), the failure is not
re-raised, and the finished signal is sent after the driver terminates. -/
theorem claim4_panic_to_user_defined_error (f : ReducerFn) (t : TaskEntry)
    (d : String) (h : f t.keys t.inputs { interval_window := t.md } = .panicked d) :
    runTask f t =
      { outbound := [],
        errors := [Error.ReduceError (.UserDefinedError (" " ++ d))],
        finished := true } := by
  unfold runTask
  rw [h]

theorem claim4_panic_witness :
    runTask panicReducer { keys := ["key1"], md := {}, inputs := [] } =
      { outbound := [],
        errors := [Error.ReduceError (.UserDefinedError (" " ++ "Panic in reduce method"))],
        finished := true } :=
  claim4_panic_to_user_defined_error panicReducer
    { keys := ["key1"], md := {}, inputs := [] } "Panic in reduce method" rfl

/-- C5: on a call that reports at least one error, the error-drain task
forwards exactly the first error of the error channel as a failure item and
signals process shutdown once; every later error of the call is discarded
without reaching the outbound stream. -/
theorem claim5_error_drain_first_error (f : ReducerFn) (l : List InboundItem)
    (h : (processCall f l).errors ≠ []) :
    (errorDrain (processCall f l).errors).forwarded = (processCall f l).errors.take 1
    ∧ (errorDrain (processCall f l).errors).forwarded.length = 1
    ∧ (errorDrain (processCall f l).errors).shutdownSignals = 1 := by
  cases herr : (processCall f l).errors with
  | nil => exact absurd herr h
  | cons e rest => exact ⟨rfl, rfl, rfl⟩

theorem claim5_error_drain_witness :
    (processCall nilReducer [Except.ok multiWindowRequest]).errors ≠ [] ∧
    (errorDrain (processCall nilReducer [Except.ok multiWindowRequest]).errors).forwarded
      = (processCall nilReducer [Except.ok multiWindowRequest]).errors.take 1 :=
  ⟨by decide,
   (claim5_error_drain_first_error nilReducer [Except.ok multiWindowRequest] (by decide)).1⟩

/-- C1: on a successful call (no error reported), the outbound stream is the
concatenation of the task drivers' items followed by the single end-of-window
marker emitted by `TaskSet.close` after every task has been closed and has
completed: the marker is the only item with `eof = true` and it is last, and
every item a task driver emits has `eof = false`. -/
theorem claim1_single_eof_marker (f : ReducerFn) (l : List InboundItem)
    (hsucc : (processCall f l).errors = []) :
    (∀ e item, item ∈ (runTask f e).outbound → item.eof = false)
    ∧ (processCall f l).outbound =
        ((dispatchLoop TaskSet.new l).tasks.map fun p => (runTask f p.2).outbound).flatten
          ++ [eofResponse (dispatchLoop TaskSet.new l).window]
    ∧ (eofResponse (dispatchLoop TaskSet.new l).window).eof = true
    ∧ (∀ item ∈ (processCall f l).outbound.dropLast, item.eof = false)
    ∧ ((processCall f l).outbound.filter fun item => item.eof).length = 1 := by
  refine ⟨fun e item h => runTask_outbound_eof f e item h,
    processCall_outbound f l, rfl, ?_, ?_⟩
  · intro item hmem
    rw [processCall_outbound, List.dropLast_concat] at hmem
    rcases List.mem_flatten.mp hmem with ⟨sub, hsub, hitem⟩
    rcases List.mem_map.mp hsub with ⟨p, hp, rfl⟩
    exact runTask_outbound_eof f p.2 item hitem
  · rw [processCall_outbound, List.filter_append]
    have hfront :
        (((dispatchLoop TaskSet.new l).tasks.map fun p =>
          (runTask f p.2).outbound).flatten.filter fun item => item.eof) = [] := by
      rw [List.filter_eq_nil_iff]
      intro a ha
      rcases List.mem_flatten.mp ha with ⟨sub, hsub, hitem⟩
      rcases List.mem_map.mp hsub with ⟨p, hp, rfl⟩
      simp [runTask_outbound_eof f p.2 a hitem]
    rw [hfront]
    rfl

theorem claim1_single_eof_marker_witness :
    (processCall nilReducer []).errors = [] ∧
    ((processCall nilReducer []).outbound.filter fun item => item.eof).length = 1 :=
  ⟨rfl, (claim1_single_eof_marker nilReducer [] rfl).2.2.2.2⟩

/-- Claim-side check that an outbound item's window carries slot "slot-0". -/
def slotOK (item : ProtoReduceResponse) : Bool :=
  match item.window with
  | some w => w.slot == "slot-0"
  | none => false

/-- C8: every item of the outbound stream — the message items and the
end-of-window marker — carries a window whose slot is "slot-0", regardless of
the slot values carried by inbound windows. -/
theorem claim8_slot_zero (f : ReducerFn) (l : List InboundItem) :
    (processCall f l).outbound.all slotOK = true := by
  rw [List.all_eq_true]
  intro item hmem
  rcases mem_processCall_outbound f l item hmem with ⟨p, hp, hitem⟩ | rfl
  · simp [slotOK, runTask_outbound_window f p.2 item hitem, protoWindowOf]
  · simp [slotOK, eofResponse, protoWindowOf]

/-- C7: a record lacking a payload or an operation descriptor is dropped with
`InternalError "Invalid ReduceRequest"` reported on the error channel — the
task set is otherwise untouched — and the dispatch loop continues with the
remaining records of the inbound stream. -/
theorem claim7_invalid_request (s : TaskSet) (rr : ProtoReduceRequest)
    (h : rr.payload = none ∨ rr.operation = none) :
    handleInbound s (Except.ok rr) = handle_error s invalidReduceRequestError
    ∧ ∀ rest, dispatchLoop s (Except.ok rr :: rest) =
        dispatchLoop (handle_error s invalidReduceRequestError) rest := by
  have h1 : handleInbound s (Except.ok rr) = handle_error s invalidReduceRequestError := by
    rcases h with hp | hop
    · simp [handleInbound, hp, invalidReduceRequestError]
    · cases hp : rr.payload with
      | none => simp [handleInbound, hp, invalidReduceRequestError]
      | some p =>
        have hval := validate_missing_operation rr p hp hop
        simp only [handleInbound, hp]
        rw [write_to_task_of_validate_error s p.keys rr _ hval,
          create_and_write_of_validate_error s p.keys rr _ hval, ite_self]
  refine ⟨h1, fun rest => ?_⟩
  show dispatchLoop (handleInbound s (Except.ok rr)) rest = _
  rw [h1]

def noPayloadRequest : ProtoReduceRequest := { payload := none, operation := none }

theorem claim7_invalid_request_witness :
    handleInbound TaskSet.new (Except.ok noPayloadRequest) =
      handle_error TaskSet.new invalidReduceRequestError :=
  (claim7_invalid_request TaskSet.new noPayloadRequest (Or.inl rfl)).1

/-- C3: a record carrying a payload and an operation whose windows count is
not 1 is dropped — the task set is unchanged apart from the error channel —
with `InternalError "Exactly one window is required"` reported; and if no
error preceded it on the call, the call's first error (the one the drain
surfaces) is exactly that error. -/
theorem claim3_multi_window_rejected (f : ReducerFn) (l₁ l₂ : List InboundItem)
    (rr : ProtoReduceRequest) (p : Payload) (op : WindowOperation)
    (hp : rr.payload = some p) (hop : rr.operation = some op)
    (hw : op.windows.length ≠ 1) :
    handleInbound (dispatchLoop TaskSet.new l₁) (Except.ok rr) =
        handle_error (dispatchLoop TaskSet.new l₁) exactlyOneWindowError
    ∧ ((dispatchLoop TaskSet.new l₁).errors = [] →
        (processCall f (l₁ ++ Except.ok rr :: l₂)).errors.head? =
          some exactlyOneWindowError) := by
  have hval := validate_multi_window rr p op hp hop hw
  have h1 : ∀ s, handleInbound s (Except.ok rr) = handle_error s exactlyOneWindowError := by
    intro s
    simp only [handleInbound, hp]
    rw [write_to_task_of_validate_error s p.keys rr _ hval,
      create_and_write_of_validate_error s p.keys rr _ hval, ite_self]
  refine ⟨h1 _, fun hempty => ?_⟩
  have hrec : recordErrors (Except.ok rr) = [exactlyOneWindowError] := by
    simp [recordErrors, hp, hval]
  have hl1 : (l₁.map recordErrors).flatten = [] := by
    have hd := dispatchLoop_errors TaskSet.new l₁
    rw [hempty] at hd
    simpa [TaskSet.new] using hd.symm
  rw [processCall_errors, List.map_append, List.flatten_append, hl1,
    List.nil_append, List.map_cons, List.flatten_cons, hrec]
  rfl

theorem claim3_multi_window_witness :
    handleInbound (dispatchLoop TaskSet.new []) (Except.ok multiWindowRequest) =
        handle_error (dispatchLoop TaskSet.new []) exactlyOneWindowError
    ∧ (processCall nilReducer ([] ++ Except.ok multiWindowRequest :: [])).errors.head? =
        some exactlyOneWindowError := by
  have h := claim3_multi_window_rejected nilReducer [] [] multiWindowRequest
    (samplePayload ["key1"]) { event := 0, windows := [sampleWindow, sampleWindow] }
    rfl rfl (by decide)
  exact ⟨h.1, h.2 rfl⟩

/-- C6: per call, the factory's `create()` is invoked exactly once per
canonical key string occurring among the valid records — at the first sight
of that key, in first-sight order — the registry holds exactly one task per
such key and none otherwise, and that task received exactly the extracted
requests of the records whose payload keys canonicalise to it, in stream
order (`taskEntryFor`). -/
theorem claim6_per_key_single_task (f : ReducerFn) (l : List InboundItem) :
    (processCall f l).createLog = firstSight (validKeys l)
    ∧ (∀ k, (processCall f l).createLog.count k = if k ∈ validKeys l then 1 else 0)
    ∧ (dispatchLoop TaskSet.new l).tasks.map Prod.fst = firstSight (validKeys l)
    ∧ ((dispatchLoop TaskSet.new l).tasks.map Prod.fst).Nodup
    ∧ (∀ k, lookupTask (dispatchLoop TaskSet.new l).tasks k = taskEntryFor k l) := by
  have inv := dispatchInv_main l
  have hlog : (processCall f l).createLog = firstSight (validKeys l) := by
    rw [processCall, close_createLog]
    exact inv.createLog_eq
  refine ⟨hlog, ?_, inv.keys_eq, ?_, inv.lookup_eq⟩
  · intro k
    rw [hlog]
    exact count_firstSight (validKeys l) k
  · rw [inv.keys_eq]
    exact nodup_firstSight _

/-- The window-echo property exactly as the specification states it: every
outbound item of the call carries the window observed on the first valid
inbound record of the call. -/
def windowEchoFirst (f : ReducerFn) (l : List InboundItem) : Bool :=
  match (l.filterMap recordView).head? with
  | none => true
  | some v₀ =>
    (processCall f l).outbound.all fun item =>
      item.window == some (protoWindowOf v₀.2.2)

def oneMsgReducer : ReducerFn := fun _ _ _ => .ok [Message.new []]

def windowA : ProtoWindow :=
  { start := some ⟨1, 0⟩, end_ := some ⟨2, 0⟩, slot := "slot-0" }

def windowB : ProtoWindow :=
  { start := some ⟨3, 0⟩, end_ := some ⟨4, 0⟩, slot := "slot-0" }

def mixedWindowStream : List InboundItem :=
  [Except.ok (sampleRequest ["a"] [windowA]),
   Except.ok (sampleRequest ["b"] [windowB])]

/-- C2 counterexample: with two keys whose records carry different windows,
the second task's message and the end-of-window marker carry the second
record's window — `create_and_write` re-pins the window on every task
creation — so not every outbound item carries the window of the first valid
inbound record. -/
theorem claim2_counterexample :
    windowEchoFirst oneMsgReducer mixedWindowStream = false := by decide

theorem dispatch_window_pinned (l : List InboundItem) :
    (dispatchLoop TaskSet.new l).window = pinnedWindow l := by
  have h := (dispatchInv_main l).window_pin
  unfold pinnedWindow
  rw [h]

theorem taskEntryFor_head (k : String) (l : List InboundItem) (e : TaskEntry)
    (h : taskEntryFor k l = some e) :
    ∃ v₀ vs, viewsFor k l = v₀ :: vs ∧ e.md = v₀.2.2 := by
  unfold taskEntryFor at h
  cases hv : viewsFor k l with
  | nil =>
    rw [hv] at h
    simp at h
  | cons v₀ vs =>
    rw [hv] at h
    exact ⟨v₀, vs, rfl, by rw [← Option.some_inj.mp h]⟩

/-- C2 amended: every message item carries the window of the record that
created its task — the first valid record whose keys canonicalise to the
task's key — and the end-of-window marker, the last outbound item, carries
the window of the most recent task-creating record (`pinnedWindow`): the code
re-pins the task set's window on every task creation, not only the first.
Consequently, when all valid records of a call carry one and the same window
— then necessarily the one of the first valid record — every outbound item
carries exactly that window. -/
theorem claim2_window_echo_amended (f : ReducerFn) (l : List InboundItem) :
    (∀ p ∈ (dispatchLoop TaskSet.new l).tasks,
      ∀ item ∈ (runTask f p.2).outbound,
        ∃ v₀ vs, viewsFor p.1 l = v₀ :: vs
          ∧ item.window = some (protoWindowOf v₀.2.2))
    ∧ (processCall f l).outbound.getLast? = some (eofResponse (pinnedWindow l))
    ∧ (∀ w, (∀ v ∈ l.filterMap recordView, v.2.2 = w) → validKeys l ≠ [] →
        ∀ item ∈ (processCall f l).outbound,
          item.window = some (protoWindowOf w)) := by
  have inv := dispatchInv_main l
  have hnd : ((dispatchLoop TaskSet.new l).tasks.map Prod.fst).Nodup := by
    rw [inv.keys_eq]
    exact nodup_firstSight _
  have hmd : ∀ p ∈ (dispatchLoop TaskSet.new l).tasks,
      ∃ v₀ vs, viewsFor p.1 l = v₀ :: vs ∧ p.2.md = v₀.2.2 := by
    intro p hp
    have hlk : lookupTask (dispatchLoop TaskSet.new l).tasks p.1 = some p.2 :=
      lookupTask_eq_some_of_mem _ p.1 p.2 hnd (by rcases p with ⟨a, b⟩; exact hp)
    rw [inv.lookup_eq] at hlk
    exact taskEntryFor_head p.1 l p.2 hlk
  refine ⟨?_, ?_, ?_⟩
  · intro p hp item hitem
    rcases hmd p hp with ⟨v₀, vs, hviews, hpmd⟩
    exact ⟨v₀, vs, hviews,
      by rw [runTask_outbound_window f p.2 item hitem, hpmd]⟩
  · rw [processCall_outbound, List.getLast?_concat, dispatch_window_pinned]
  · intro w hall hne item hmem
    have hwin : (dispatchLoop TaskSet.new l).window = w := inv.window_all w hall hne
    rcases mem_processCall_outbound f l item hmem with ⟨p, hp, hitem⟩ | rfl
    · rcases hmd p hp with ⟨v₀, vs, hviews, hpmd⟩
      have hv₀ : v₀ ∈ l.filterMap recordView := by
        have hmem' : v₀ ∈ viewsFor p.1 l := by
          rw [hviews]
          exact List.mem_cons_self v₀ vs
        exact List.mem_of_mem_filter hmem'
      rw [runTask_outbound_window f p.2 item hitem, hpmd, hall v₀ hv₀]
    · rw [hwin]
      rfl

def echoWindow : IntervalWindow :=
  IntervalWindow.new (some ⟨60000, 0⟩) (some ⟨120000, 0⟩)

def echoStream : List InboundItem :=
  [Except.ok (sampleRequest ["key1"] [sampleWindow])]

def echoRequest : ReduceRequest :=
  { keys := ["key1"], value := [], watermark := none, eventtime := none }

def echoEntry : String × TaskEntry :=
  ("key1", { keys := ["key1"], md := echoWindow, inputs := [echoRequest] })

def echoItem : ProtoReduceResponse := driverResponse echoWindow (Message.new [])

theorem claim2_window_echo_amended_witness :
    (∃ v₀ vs, viewsFor "key1" echoStream = v₀ :: vs
       ∧ echoItem.window = some (protoWindowOf v₀.2.2))
    ∧ (processCall oneMsgReducer echoStream).outbound.getLast?
        = some (eofResponse (pinnedWindow echoStream))
    ∧ (eofResponse echoWindow).window = some (protoWindowOf echoWindow) := by
  have hthm := claim2_window_echo_amended oneMsgReducer echoStream
  refine ⟨?_, hthm.2.1, ?_⟩
  · have hp₀ : echoEntry ∈ (dispatchLoop TaskSet.new echoStream).tasks := by
      have hts : (dispatchLoop TaskSet.new echoStream).tasks = [echoEntry] := rfl
      rw [hts]
      exact List.mem_singleton.mpr rfl
    have hi₀ : echoItem ∈ (runTask oneMsgReducer echoEntry.2).outbound := by
      have hout : (runTask oneMsgReducer echoEntry.2).outbound = [echoItem] := rfl
      rw [hout]
      exact List.mem_singleton.mpr rfl
    exact hthm.1 echoEntry hp₀ echoItem hi₀
  · have hm : eofResponse echoWindow ∈ (processCall oneMsgReducer echoStream).outbound := by
      rw [processCall_outbound]
      have hw : (dispatchLoop TaskSet.new echoStream).window = echoWindow := rfl
      rw [hw]
      exact List.mem_append_right _ (List.mem_singleton.mpr rfl)
    refine hthm.2.2 echoWindow ?_ (by decide) (eofResponse echoWindow) hm
    intro v hv
    have hred : echoStream.filterMap recordView = [(["key1"], echoRequest, echoWindow)] := rfl
    rw [hred, List.mem_singleton] at hv
    subst hv
    rfl

end NumaflowReduce
